import Mathlib

/-!
Verification of the trading-journal account synchronization pipeline.

The definitions below are a shallow embedding of:
  * the backend credential vault (`src/backend/app/services/encryption_service.py`),
  * the VPS sync worker (`src/vps/mt5_sync_service.py`), and
  * the Gateway's VPS endpoints (`src/backend/app/routes/mt5.py`).
Byte strings are `List Nat` (each entry one byte); timestamps are `Int`
seconds; money amounts are exact `Int` values.
-/

namespace TJ

/-- Byte strings as lists of naturals. -/
abbrev Bytes := List Nat

/-- Pointwise XOR of two byte strings (length of the shorter). -/
def xorBytes (a b : Bytes) : Bytes := List.zipWith Nat.xor a b

theorem xorBytes_length (a b : Bytes) :
    (xorBytes a b).length = min a.length b.length := by
  simp [xorBytes]

theorem xorBytes_cancel : ∀ (a b : Bytes), a.length = b.length →
    xorBytes (xorBytes a b) b = a
  | [], [], _ => rfl
  | [], _ :: _, h => by simp at h
  | _ :: _, [], h => by simp at h
  | x :: a, y :: b, h => by
    simp only [xorBytes, List.zipWith] at *
    refine congrArg₂ (· :: ·) ?_ (xorBytes_cancel a b (by simpa using h))
    exact Nat.xor_cancel_right y x

/-! ### PKCS#7 padding (block size 16)

`pad16` models the padding applied by the `cryptography` library before
AES-CBC encryption; `unpad16` models `Crypto.Util.Padding.unpad` used by the
worker (which raises on malformed padding, modelled as `none`). -/

/-- PKCS#7-pad a byte string to a multiple of 16 bytes. -/
def pad16 (bs : Bytes) : Bytes :=
  bs ++ List.replicate (16 - bs.length % 16) (16 - bs.length % 16)

/-- PKCS#7-unpad; `none` models the padding-check failure. -/
def unpad16 (bs : Bytes) : Option Bytes :=
  match bs.getLast? with
  | none => none
  | some k =>
    if 1 ≤ k ∧ k ≤ 16 ∧ k ≤ bs.length ∧
        bs.drop (bs.length - k) = List.replicate k k then
      some (bs.take (bs.length - k))
    else
      none

theorem pad16_length (bs : Bytes) :
    (pad16 bs).length = bs.length + (16 - bs.length % 16) := by
  simp [pad16]

theorem pad16_length_mod (bs : Bytes) : (pad16 bs).length % 16 = 0 := by
  rw [pad16_length]
  omega

theorem pad16_length_pos (bs : Bytes) : 0 < (pad16 bs).length := by
  rw [pad16_length]
  omega

theorem unpad16_pad16 (bs : Bytes) : unpad16 (pad16 bs) = some bs := by
  have hk1 : 1 ≤ 16 - bs.length % 16 := by omega
  have hlast : (pad16 bs).getLast? = some (16 - bs.length % 16) := by
    rw [pad16, List.getLast?_append, List.getLast?_replicate, if_neg (by omega)]
    rfl
  have hlen : (pad16 bs).length = bs.length + (16 - bs.length % 16) := by
    simp [pad16]
  have hsub : (pad16 bs).length - (16 - bs.length % 16) = bs.length := by
    rw [hlen]; omega
  have hdrop : (pad16 bs).drop bs.length
      = List.replicate (16 - bs.length % 16) (16 - bs.length % 16) := by
    rw [pad16]; exact List.drop_left' rfl
  have htake : (pad16 bs).take bs.length = bs := by
    rw [pad16]; exact List.take_left' rfl
  rw [unpad16, hlast]
  simp only [hsub, hdrop, htake]
  rw [if_pos ⟨hk1, by omega, by rw [hlen]; omega, trivial⟩]

/-! ### AES-CBC mode over an abstract block cipher

The AES core lives in third-party libraries (`cryptography`, `pycryptodome`);
it is modelled as an abstract pair of maps `E`/`D` on 16-byte blocks.  CBC
chaining itself is part of the documented token layout. -/

/-- CBC-mode encryption of a (padded) byte string under block map `E`,
with chaining value `prev` (initially the IV).  The fuel argument only
bounds the recursion; one byte of fuel per input byte always suffices. -/
def cbcEncryptAux (E : Bytes → Bytes) : Nat → Bytes → Bytes → Bytes
  | 0, _, _ => []
  | fuel + 1, prev, pt =>
    if pt = [] then []
    else
      E (xorBytes (pt.take 16) prev) ++
        cbcEncryptAux E fuel (E (xorBytes (pt.take 16) prev)) (pt.drop 16)

/-- CBC-mode encryption (wrapper supplying enough fuel). -/
def cbcEncrypt (E : Bytes → Bytes) (prev pt : Bytes) : Bytes :=
  cbcEncryptAux E pt.length prev pt

/-- CBC-mode decryption under block map `D`, with chaining value `prev`. -/
def cbcDecryptAux (D : Bytes → Bytes) : Nat → Bytes → Bytes → Bytes
  | 0, _, _ => []
  | fuel + 1, prev, ct =>
    if ct = [] then []
    else
      xorBytes (D (ct.take 16)) prev ++
        cbcDecryptAux D fuel (ct.take 16) (ct.drop 16)

/-- CBC-mode decryption (wrapper supplying enough fuel). -/
def cbcDecrypt (D : Bytes → Bytes) (prev ct : Bytes) : Bytes :=
  cbcDecryptAux D ct.length prev ct

/-- A well-behaved block cipher pair: `E` maps 16-byte blocks to 16-byte
blocks and `D` inverts it. -/
def BlockInverse (E D : Bytes → Bytes) : Prop :=
  ∀ b : Bytes, b.length = 16 → (E b).length = 16 ∧ D (E b) = b

theorem cbcEncryptAux_length (E : Bytes → Bytes)
    (hE : ∀ b : Bytes, b.length = 16 → (E b).length = 16) :
    ∀ (k fuel : Nat) (pt prev : Bytes), pt.length = 16 * k →
      pt.length ≤ fuel → prev.length = 16 →
      (cbcEncryptAux E fuel prev pt).length = 16 * k := by
  intro k
  induction k with
  | zero =>
    intro fuel pt prev hpt _ _
    have : pt = [] := List.length_eq_zero.mp (by omega)
    subst this
    cases fuel <;> simp [cbcEncryptAux]
  | succ k ih =>
    intro fuel pt prev hpt hfuel hprev
    have hne : pt ≠ [] := by
      intro h
      rw [h] at hpt
      simp only [List.length_nil] at hpt
      omega
    obtain ⟨fuel, rfl⟩ : ∃ f, fuel = f + 1 := by
      cases fuel with
      | zero => exfalso; have := List.length_pos.mpr hne; omega
      | succ f => exact ⟨f, rfl⟩
    have htake : (pt.take 16).length = 16 := by
      rw [List.length_take]; omega
    have hxor : (xorBytes (pt.take 16) prev).length = 16 := by
      rw [xorBytes_length, htake, hprev]; simp
    have hc : (E (xorBytes (pt.take 16) prev)).length = 16 := hE _ hxor
    rw [cbcEncryptAux, if_neg hne]
    simp only [List.length_append, hc]
    have hdrop : (pt.drop 16).length = 16 * k := by
      rw [List.length_drop]; omega
    rw [ih fuel (pt.drop 16) _ hdrop (by rw [List.length_drop]; omega) hc]
    ring

theorem cbcEncrypt_length (E : Bytes → Bytes)
    (hE : ∀ b : Bytes, b.length = 16 → (E b).length = 16)
    (k : Nat) (pt prev : Bytes) (hpt : pt.length = 16 * k)
    (hprev : prev.length = 16) :
    (cbcEncrypt E prev pt).length = 16 * k :=
  cbcEncryptAux_length E hE k pt.length pt prev hpt le_rfl hprev

theorem cbcDecryptAux_cbcEncryptAux (E D : Bytes → Bytes)
    (hED : BlockInverse E D) :
    ∀ (k fuelE fuelD : Nat) (pt prev : Bytes), pt.length = 16 * k →
      pt.length ≤ fuelE → 16 * k ≤ fuelD → prev.length = 16 →
      cbcDecryptAux D fuelD prev (cbcEncryptAux E fuelE prev pt) = pt := by
  intro k
  induction k with
  | zero =>
    intro fuelE fuelD pt prev hpt _ _ _
    have : pt = [] := List.length_eq_zero.mp (by omega)
    subst this
    cases fuelE <;> cases fuelD <;> simp [cbcEncryptAux, cbcDecryptAux]
  | succ k ih =>
    intro fuelE fuelD pt prev hpt hfE hfD hprev
    have hne : pt ≠ [] := by
      intro h
      rw [h] at hpt
      simp only [List.length_nil] at hpt
      omega
    obtain ⟨fuelE, rfl⟩ : ∃ f, fuelE = f + 1 := by
      cases fuelE with
      | zero => exfalso; have := List.length_pos.mpr hne; omega
      | succ f => exact ⟨f, rfl⟩
    obtain ⟨fuelD, rfl⟩ : ∃ f, fuelD = f + 1 := by
      cases fuelD with
      | zero => exfalso; omega
      | succ f => exact ⟨f, rfl⟩
    have htake : (pt.take 16).length = 16 := by
      rw [List.length_take]; omega
    have hxor : (xorBytes (pt.take 16) prev).length = 16 := by
      rw [xorBytes_length, htake, hprev]; simp
    obtain ⟨hclen, hcinv⟩ := hED _ hxor
    set c := E (xorBytes (pt.take 16) prev) with hc
    have hcne : c ≠ [] := by
      intro h
      rw [h] at hclen
      simp at hclen
    rw [cbcEncryptAux, if_neg hne]
    simp only [← hc]
    have happne : c ++ cbcEncryptAux E fuelE c (pt.drop 16) ≠ [] := by
      simp [hcne]
    rw [cbcDecryptAux, if_neg happne]
    rw [List.take_left' hclen, List.drop_left' hclen]
    have hdrop : (pt.drop 16).length = 16 * k := by
      rw [List.length_drop]; omega
    rw [ih fuelE fuelD (pt.drop 16) c hdrop (by rw [List.length_drop]; omega)
        (by omega) hclen,
      hcinv, xorBytes_cancel _ _ (by rw [htake, hprev]), List.take_append_drop]

theorem cbcDecrypt_cbcEncrypt (E D : Bytes → Bytes) (hED : BlockInverse E D)
    (k : Nat) (pt prev : Bytes) (hpt : pt.length = 16 * k)
    (hprev : prev.length = 16) :
    cbcDecrypt D prev (cbcEncrypt E prev pt) = pt := by
  have hElen : (cbcEncrypt E prev pt).length = 16 * k :=
    cbcEncrypt_length E (fun b hb => (hED b hb).1) k pt prev hpt hprev
  rw [cbcDecrypt, hElen]
  exact cbcDecryptAux_cbcEncryptAux E D hED k pt.length (16 * k) pt prev hpt
    le_rfl le_rfl hprev

/-! ### The credential-vault token scheme

Here `encrypt`/`decrypt` in `src/backend/app/services/encryption_service.py`
delegate to `cryptography.fernet.Fernet`, a third-party library.  -/

/-- Modelled from the spec: the Fernet token layout used by
`cryptography.fernet.Fernet` (the library itself is not part of the
repository).  A token is a 1-byte version `0x80`, an 8-byte timestamp, a
16-byte IV, AES-128-CBC ciphertext of the PKCS#7-padded secret, followed by
a 32-byte HMAC-SHA256 tag over all preceding bytes.  `E` is the
(key-instantiated) AES block map and `sig` the (key-instantiated) HMAC. -/
def fernetEncrypt (E : Bytes → Bytes) (sig : Bytes → Bytes)
    (ts iv pt : Bytes) : Bytes :=
  ([128] ++ ts ++ iv ++ cbcEncrypt E iv (pad16 pt)) ++
    sig ([128] ++ ts ++ iv ++ cbcEncrypt E iv (pad16 pt))

/-- Modelled from the spec: Fernet decryption as performed by
`cryptography.fernet.Fernet.decrypt` — parse the layout, verify the HMAC
tag over all bytes before it, then CBC-decrypt and unpad; every failure is
an `InvalidToken` error, which `EncryptionService.decrypt`
(`src/backend/app/services/encryption_service.py` lines 42-56) catches and
turns into `None` — modelled as `none`. -/
def fernetDecrypt (D : Bytes → Bytes) (sig : Bytes → Bytes)
    (data : Bytes) : Option Bytes :=
  if data.length < 57 then none
  else if data.head? ≠ some 128 then none
  else if sig (data.take (data.length - 32)) ≠ data.drop (data.length - 32)
    then none
  else if ((data.take (data.length - 32)).drop 25).length % 16 ≠ 0 then none
  else unpad16 (cbcDecrypt D ((data.drop 9).take 16)
    ((data.take (data.length - 32)).drop 25))

/-- The worker's reimplementation
(`src/vps/mt5_sync_service.py`, `EncryptionService.decrypt`, lines 93-116):
parse `version = data[0]`, `iv = data[9:25]`, `ciphertext = data[25:][:-32]`,
read (but never verify) the final 32-byte HMAC tag, AES-128-CBC-decrypt and
unpad.  A raised exception (empty input, bad block length, bad padding) is
modelled as `none`. -/
def wDecrypt (D : Bytes → Bytes) (data : Bytes) : Option Bytes :=
  if data = [] then none
  else if ((data.drop 25).take ((data.drop 25).length - 32)).length % 16 ≠ 0
    then none
  else unpad16 (cbcDecrypt D ((data.drop 9).take 16)
    ((data.drop 25).take ((data.drop 25).length - 32)))

theorem fernetDecrypt_fernetEncrypt (E D sig : Bytes → Bytes)
    (hED : BlockInverse E D) (hsig : ∀ b : Bytes, (sig b).length = 32)
    (ts iv pt : Bytes) (hts : ts.length = 8) (hiv : iv.length = 16) :
    fernetDecrypt D sig (fernetEncrypt E sig ts iv pt) = some pt := by
  have hpadmod : (pad16 pt).length % 16 = 0 := pad16_length_mod pt
  have hpadpos : 0 < (pad16 pt).length := pad16_length_pos pt
  obtain ⟨k, hk⟩ : ∃ k, (pad16 pt).length = 16 * k :=
    ⟨(pad16 pt).length / 16, by omega⟩
  have hkpos : 1 ≤ k := by omega
  have hct : (cbcEncrypt E iv (pad16 pt)).length = 16 * k :=
    cbcEncrypt_length E (fun b hb => (hED b hb).1) k _ iv hk hiv
  set ct := cbcEncrypt E iv (pad16 pt) with hctdef
  set body : Bytes := [128] ++ ts ++ iv ++ ct with hbody
  have hbodylen : body.length = 25 + 16 * k := by
    simp [hbody, hts, hiv, hct]
    omega
  set data : Bytes := body ++ sig body with hdata
  have hdatalen : data.length = 57 + 16 * k := by
    simp [hdata, hbodylen, hsig body]
    omega
  have hsub : data.length - 32 = body.length := by omega
  have htakebody : data.take (data.length - 32) = body := by
    rw [hsub, hdata]
    exact List.take_left body (sig body)
  have hdropbody : data.drop (data.length - 32) = sig body := by
    rw [hsub, hdata]
    exact List.drop_left body (sig body)
  have hct25 : body.drop 25 = ct := by
    have : body = ([128] ++ ts ++ iv) ++ ct := by
      simp [hbody]
    rw [this]
    exact List.drop_left' (by simp [hts, hiv])
  have hiv9 : (data.drop 9).take 16 = iv := by
    have h9 : data.drop 9 = iv ++ (ct ++ sig body) := by
      have : data = ([128] ++ ts) ++ (iv ++ (ct ++ sig body)) := by
        simp [hdata, hbody]
      rw [this]
      exact List.drop_left' (by simp [hts])
    rw [h9]
    exact List.take_left' hiv
  have hhead : data.head? = some 128 := by
    simp [hdata, hbody]
  show fernetDecrypt D sig data = some pt
  rw [fernetDecrypt, if_neg (by omega),
    if_neg (by rw [hhead]; exact fun h => h rfl),
    if_neg (by rw [htakebody, hdropbody]; exact fun h => h rfl)]
  rw [htakebody, hct25]
  rw [if_neg (by rw [hct]; omega)]
  rw [hiv9, hctdef, cbcDecrypt_cbcEncrypt E D hED k _ iv hk hiv, unpad16_pad16]

/-! ### Raw deals and reconciliation (`src/vps/mt5_sync_service.py`,
`sync_account`, lines 272-351)

Field-for-field embedding of the MT5 structures the worker reads.  Prices
and money amounts are exact `Int` values; times are `Int` Unix seconds. -/

/-- One raw history deal (`mt5.history_deals_get`).  `dtype` is `deal.type`
(0 = buy, 1 = sell, anything greater is a balance/credit operation);
`entry` is `deal.entry` (0 = entry, 1 = exit). -/
structure Deal where
  dtype : Nat
  entry : Nat
  position_id : Nat
  symbol : String
  volume : Int
  price : Int
  time : Int
  profit : Int
  commission : Int
  swap : Int
deriving Repr, DecidableEq

/-- One currently-open position (`mt5.positions_get`). -/
structure OpenPos where
  ticket : Nat
  ptype : Nat
  symbol : String
  volume : Int
  price_open : Int
  price_current : Int
  sl : Int
  tp : Int
  time : Int
  profit : Int
  commission : Int
  swap : Int
deriving Repr, DecidableEq

/-- The `trade_data` dict the worker builds before `insert_trade`. -/
structure TradeData where
  ticket : Nat
  symbol : String
  trade_type : String
  volume : Int
  open_price : Int
  close_price : Option Int
  stop_loss : Option Int
  take_profit : Option Int
  open_time : Int
  close_time : Option Int
  profit : Int
  commission : Int
  swap : Int
  net_profit : Int
  is_closed : Bool
deriving Repr, DecidableEq

/-- One slot of the worker's `positions` dict: the latest entry deal and
the latest exit deal seen for one position id. -/
structure PosGroup where
  entryDeal : Option Deal
  exitDeal : Option Deal
deriving Repr, DecidableEq

/-- Process one deal into the `positions` dict (lines 283-295): skip
balance/credit deals (`deal.type > 1`), create the position slot if absent
(Python dicts keep insertion order), then store the deal in the entry or
exit slot according to `deal.entry`. -/
def updateGroups (g : List (Nat × PosGroup)) (d : Deal) :
    List (Nat × PosGroup) :=
  if d.dtype > 1 then g
  else
    (if g.any (fun p => p.1 = d.position_id) then g
     else g ++ [(d.position_id, ⟨none, none⟩)]).map
      (fun p =>
        if p.1 = d.position_id then
          (p.1,
            if d.entry = 0 then { p.2 with entryDeal := some d }
            else if d.entry = 1 then { p.2 with exitDeal := some d }
            else p.2)
        else p)

/-- Group a deal history by position id (lines 282-295). -/
def groupDeals (ds : List Deal) : List (Nat × PosGroup) :=
  ds.foldl updateGroups []

/-- Build the closed `trade_data` for a completed position
(lines 299-319).  Note `net_profit` is
`exit.profit + entry.commission + exit.commission` (line 317). -/
def mkClosed (pos_id : Nat) (e x : Deal) : TradeData where
  ticket := pos_id
  symbol := e.symbol
  trade_type := if e.dtype = 0 then "buy" else "sell"
  volume := e.volume
  open_price := e.price
  close_price := some x.price
  stop_loss := none
  take_profit := none
  open_time := e.time
  close_time := some x.time
  profit := x.profit
  commission := e.commission + x.commission
  swap := e.swap + x.swap
  net_profit := x.profit + e.commission + x.commission
  is_closed := true

/-- Closed round-trip trades reconciled from a deal history: positions
with both an entry and an exit deal (lines 297-319). -/
def closedTrades (ds : List Deal) : List TradeData :=
  (groupDeals ds).filterMap
    (fun p =>
      match p.2.entryDeal, p.2.exitDeal with
      | some e, some x => some (mkClosed p.1 e x)
      | _, _ => none)

/-- Build the open `trade_data` for a currently-open position
(lines 331-348): live `price_current` as provisional close price and
floating `profit` as provisional `net_profit`. -/
def mkOpen (pos : OpenPos) : TradeData where
  ticket := pos.ticket
  symbol := pos.symbol
  trade_type := if pos.ptype = 0 then "buy" else "sell"
  volume := pos.volume
  open_price := pos.price_open
  close_price := some pos.price_current
  stop_loss := if pos.sl > 0 then some pos.sl else none
  take_profit := if pos.tp > 0 then some pos.tp else none
  open_time := pos.time
  close_time := none
  profit := pos.profit
  commission := pos.commission
  swap := pos.swap
  net_profit := pos.profit
  is_closed := false

/-! ### The ledger write (`insert_trade`, lines 186-229) -/

/-- One row of the `trades` table (the columns `insert_trade` writes). -/
structure TradeRow where
  user_id : Nat
  mt5_ticket : String
  trade_source : String
  symbol : String
  trade_type : String
  volume : Int
  open_price : Int
  close_price : Option Int
  stop_loss : Option Int
  take_profit : Option Int
  open_time : Int
  close_time : Option Int
  profit : Int
  commission : Int
  swap : Int
  net_profit : Int
  is_closed : Bool
deriving Repr, DecidableEq

/-- The row `insert_trade` inserts for `(user_id, trade_data)`. -/
def rowOf (user_id : Nat) (td : TradeData) : TradeRow where
  user_id := user_id
  mt5_ticket := toString td.ticket
  trade_source := "mt5_auto"
  symbol := td.symbol
  trade_type := td.trade_type
  volume := td.volume
  open_price := td.open_price
  close_price := td.close_price
  stop_loss := td.stop_loss
  take_profit := td.take_profit
  open_time := td.open_time
  close_time := td.close_time
  profit := td.profit
  commission := td.commission
  swap := td.swap
  net_profit := td.net_profit
  is_closed := td.is_closed

/-- The lookup `SELECT id FROM trades WHERE user_id = :user_id AND
mt5_ticket = :ticket` (lines 190-192): does the ledger hold a row with this key? -/
def keyExists (user_id : Nat) (ticket : String) (l : List TradeRow) : Bool :=
  l.any (fun r => r.user_id = user_id ∧ r.mt5_ticket = ticket)

/-- The ledger write `insert_trade` (lines 186-229): insert-if-absent keyed by
`(user_id, str(ticket))`; returns whether a row was inserted, and the
resulting ledger. -/
def insert_trade (user_id : Nat) (td : TradeData) (l : List TradeRow) :
    Bool × List TradeRow :=
  if keyExists user_id (toString td.ticket) l then (false, l)
  else (true, l ++ [rowOf user_id td])

/-- Insert a batch of reconciled trades in order, counting insertions
(the `trades_synced` counter of `sync_account`). -/
def insertAll (user_id : Nat) : List TradeData → List TradeRow →
    Nat × List TradeRow
  | [], l => (0, l)
  | td :: tds, l =>
    let p := insert_trade user_id td l
    let q := insertAll user_id tds p.2
    ((if p.1 then 1 else 0) + q.1, q.2)

/-- The ledger writes of one `sync_account` run over a deal history and an
open-position feed: closed reconciled trades first (lines 297-325), then
open positions (lines 327-351), all through `insert_trade`. -/
def syncWrites (user_id : Nat) (ds : List Deal) (ps : List OpenPos)
    (l : List TradeRow) : Nat × List TradeRow :=
  insertAll user_id (closedTrades ds ++ ps.map mkOpen) l

/-! ### The scheduling Gateway (`src/backend/app/routes/mt5.py`,
VPS endpoints, lines 232-314) -/

/-- The `mt5_accounts` fields these endpoints read and write.  Times are
`Int` Unix seconds; `sync_interval_minutes` is minutes. -/
structure MT5Account where
  id : Nat
  user_id : Nat
  mt5_login : String
  mt5_password_encrypted : Bytes
  mt5_server : String
  sync_interval_minutes : Int
  is_active : Bool
  last_sync_at : Option Int
  last_sync_status : Option String
  last_sync_message : Option String
  last_trade_time : Option Int
deriving Repr, DecidableEq

/-- The `VPSSyncAccount` response row (decrypted password included). -/
structure VPSSyncAccount where
  id : Nat
  user_id : Nat
  mt5_login : String
  mt5_password : Bytes
  mt5_server : String
  sync_interval_minutes : Int
  last_sync_at : Option Int
  last_trade_time : Option Int
deriving Repr, DecidableEq

/-- The `VPSSyncStatusUpdate` request body. -/
structure VPSStatusUpdate where
  account_id : Nat
  status : String
  message : String
  last_trade_time : Option Int
deriving Repr, DecidableEq

/-- The due test of lines 259-267: sync when `last_sync_at` is null or
`now >= last_sync_at + timedelta(minutes=sync_interval_minutes)`. -/
def shouldSync (now : Int) (a : MT5Account) : Bool :=
  match a.last_sync_at with
  | none => true
  | some t => now ≥ t + 60 * a.sync_interval_minutes

/-- The response row built at lines 273-282. -/
def toVPS (a : MT5Account) (pw : Bytes) : VPSSyncAccount where
  id := a.id
  user_id := a.user_id
  mt5_login := a.mt5_login
  mt5_password := pw
  mt5_server := a.mt5_server
  sync_interval_minutes := a.sync_interval_minutes
  last_sync_at := a.last_sync_at
  last_trade_time := a.last_trade_time

/-- The loop body of `get_accounts_for_vps_sync` (lines 258-282): if the
account is due, decrypt its password (`dec` is the vault decrypt); the
account is included only when decryption yields a truthy (non-empty)
password.  `none` means the account is skipped. -/
def dueSelector (dec : Bytes → Option Bytes) (now : Int) (a : MT5Account) :
    Option VPSSyncAccount :=
  if shouldSync now a then
    match dec a.mt5_password_encrypted with
    | some pw => if pw ≠ [] then some (toVPS a pw) else none
    | none => none
  else none

/-- The result list of `get_accounts_for_vps_sync` after the auth check:
the active-accounts query (line 251-253) followed by the per-account loop
(lines 258-282). -/
def vpsPullAccounts (dec : Bytes → Option Bytes) (now : Int)
    (l : List MT5Account) : List VPSSyncAccount :=
  (l.filter (fun a => a.is_active)).filterMap (dueSelector dec now)

/-- Endpoint `GET /api/mt5/vps/accounts` (lines 232-284): check the `X-VPS-Secret`
header against `VPS_SECRET` (401 on mismatch), then list due accounts.
The route never writes, so it returns the account table unchanged. -/
def routePull (hdr vpsSecret : String) (dec : Bytes → Option Bytes)
    (now : Int) (l : List MT5Account) :
    Except Nat (List VPSSyncAccount × List MT5Account) :=
  if hdr ≠ vpsSecret then .error 401
  else .ok (vpsPullAccounts dec now l, l)

/-- The field updates of `update_sync_status_from_vps` (lines 306-311):
`last_sync_at := now`, status and message from the body, and
`last_trade_time` overwritten whenever the body carries one. -/
def setStatus (a : MT5Account) (upd : VPSStatusUpdate) (now : Int) :
    MT5Account :=
  { a with
    last_sync_at := some now
    last_sync_status := some upd.status
    last_sync_message := some upd.message
    last_trade_time :=
      match upd.last_trade_time with
      | some t => some t
      | none => a.last_trade_time }

/-- Find the first account with the body's `account_id` (line 302) and
apply the status update to it; `none` models the 404. -/
def applyStatus (upd : VPSStatusUpdate) (now : Int) :
    List MT5Account → Option (List MT5Account)
  | [] => none
  | a :: rest =>
    if a.id = upd.account_id then some (setStatus a upd now :: rest)
    else (applyStatus upd now rest).map (a :: ·)

/-- Endpoint `POST /api/mt5/vps/status` (lines 287-314): check the `X-VPS-Secret`
header (401 on mismatch), find the account (404 if absent), update its
status fields. -/
def routeStatus (hdr vpsSecret : String) (upd : VPSStatusUpdate) (now : Int)
    (l : List MT5Account) : Except Nat (List MT5Account × String) :=
  if hdr ≠ vpsSecret then .error 401
  else
    match applyStatus upd now l with
    | none => .error 404
    | some l2 => .ok (l2, "updated")

/-- The account table after a call to `POST /api/mt5/vps/status`: a
rejected request leaves it unchanged. -/
def statusState (hdr vpsSecret : String) (upd : VPSStatusUpdate) (now : Int)
    (l : List MT5Account) : List MT5Account :=
  match routeStatus hdr vpsSecret upd now l with
  | .ok (l2, _) => l2
  | .error _ => l

/-- The `last_trade_time` the worker reports after syncing one account
(`run_sync_cycle`, line 391): `datetime.now(timezone.utc)` when at least
one row was inserted, else nothing. -/
def cycleReportTime (tradesSynced : Nat) (now : Int) : Option Int :=
  if tradesSynced > 0 then some now else none

/-! ### Lemmas about the ledger write -/

theorem keyExists_iff (u : Nat) (k : String) (l : List TradeRow) :
    keyExists u k l = true ↔ ∃ r ∈ l, r.user_id = u ∧ r.mt5_ticket = k := by
  simp [keyExists]

theorem insert_trade_key_self (u : Nat) (td : TradeData) (l : List TradeRow) :
    keyExists u (toString td.ticket) (insert_trade u td l).2 = true := by
  unfold insert_trade
  by_cases h : keyExists u (toString td.ticket) l = true
  · rw [if_pos h]
    exact h
  · rw [if_neg h]
    simp [keyExists, rowOf]

theorem insert_trade_key_mono (u u2 : Nat) (k : String) (td : TradeData)
    (l : List TradeRow) (h : keyExists u k l = true) :
    keyExists u k (insert_trade u2 td l).2 = true := by
  unfold insert_trade
  by_cases h2 : keyExists u2 (toString td.ticket) l = true
  · rw [if_pos h2]
    exact h
  · rw [if_neg h2]
    simp only [keyExists, List.any_append] at h ⊢
    rw [h]
    simp

theorem insertAll_key_mono (u u2 : Nat) (k : String) :
    ∀ (tds : List TradeData) (l : List TradeRow),
      keyExists u k l = true → keyExists u k (insertAll u2 tds l).2 = true := by
  intro tds
  induction tds with
  | nil => intro l h; exact h
  | cons td tds ih =>
    intro l h
    exact ih _ (insert_trade_key_mono u u2 k td l h)

theorem insertAll_key_of_mem (u : Nat) :
    ∀ (tds : List TradeData) (td : TradeData) (l : List TradeRow),
      td ∈ tds →
      keyExists u (toString td.ticket) (insertAll u tds l).2 = true := by
  intro tds
  induction tds with
  | nil => intro td l h; cases h
  | cons td2 tds ih =>
    intro td l h
    rcases List.mem_cons.mp h with h | h
    · subst h
      exact insertAll_key_mono u u _ tds _ (insert_trade_key_self u td l)
    · exact ih td _ h

theorem insertAll_all_present (u : Nat) :
    ∀ (tds : List TradeData) (l : List TradeRow),
      (∀ td ∈ tds, keyExists u (toString td.ticket) l = true) →
      insertAll u tds l = (0, l) := by
  intro tds
  induction tds with
  | nil => intro l _; rfl
  | cons td tds ih =>
    intro l h
    have hk : keyExists u (toString td.ticket) l = true := h td (by simp)
    have hins : insert_trade u td l = (false, l) := by
      unfold insert_trade
      rw [if_pos hk]
    rw [insertAll, hins]
    rw [ih l (fun td2 h2 => h td2 (by simp [h2]))]
    simp

/-- C1.  The ledger write is an idempotent insert-if-absent keyed by
`(user_id, str(ticket))`: `insert_trade` inserts exactly when no row with
that key exists (and reports it), and a second run of the sync's ledger
writes over the same deal set and open positions, against the ledger the
first run produced, inserts zero new rows and leaves the ledger unchanged. -/
theorem ledger_insert_if_absent_idempotent (u : Nat) (td : TradeData)
    (l0 : List TradeRow) (ds : List Deal) (ps : List OpenPos)
    (l : List TradeRow) :
    ((insert_trade u td l0).1 = true ↔
      ¬ ∃ r ∈ l0, r.user_id = u ∧ r.mt5_ticket = toString td.ticket) ∧
    syncWrites u ds ps (syncWrites u ds ps l).2 =
      (0, (syncWrites u ds ps l).2) := by
  constructor
  · rw [← keyExists_iff]
    unfold insert_trade
    by_cases h : keyExists u (toString td.ticket) l0 = true
    · rw [if_pos h]
      simp [h]
    · rw [if_neg h]
      simp [h]
  · unfold syncWrites
    exact insertAll_all_present u _ _
      (fun td2 h2 => insertAll_key_of_mem u _ td2 l h2)

/-- The live open position and the stale ledger row used to settle C7. -/
def livePos7 : OpenPos :=
  { ticket := 7, ptype := 0, symbol := "EURUSD", volume := 1,
    price_open := 100, price_current := 200, sl := 0, tp := 0,
    time := 10, profit := 50, commission := 0, swap := 0 }

/-- The same ticket as recorded by the previous cycle (price 100). -/
def stalePos7 : OpenPos :=
  { ticket := 7, ptype := 0, symbol := "EURUSD", volume := 1,
    price_open := 100, price_current := 100, sl := 0, tp := 0,
    time := 10, profit := 0, commission := 0, swap := 0 }

/-- The ledger row the previous cycle inserted for ticket 7. -/
def staleRow7 : TradeRow := rowOf 1 (mkOpen stalePos7)

/-- C7 counterexample.  A currently-open position whose `(owner, ticket)`
key already has a ledger row is rejected by `insert_trade`, not upserted:
the stale row keeps its old provisional close price 100 even though the
live position reports 200. -/
theorem open_position_not_upserted_cex :
    insert_trade 1 (mkOpen livePos7) [staleRow7] = (false, [staleRow7]) ∧
    (mkOpen livePos7).close_price = some 200 ∧
    staleRow7.close_price = some 100 := by
  decide

/-- C7 as amended.  Open positions go through the same insert-if-absent
write as closed trades: when a row for `(owner, ticket)` already exists the
live record is dropped and the stored row is left untouched; only tickets
with no existing row are inserted. -/
theorem open_position_insert_if_absent (u : Nat) (pos : OpenPos)
    (l : List TradeRow)
    (h : keyExists u (toString pos.ticket) l = true) :
    insert_trade u (mkOpen pos) l = (false, l) := by
  unfold insert_trade
  rw [if_pos]
  exact h

/-- Witness for `open_position_insert_if_absent` at a concrete input. -/
theorem open_position_insert_if_absent_witness :
    insert_trade 1 (mkOpen livePos7) [staleRow7] = (false, [staleRow7]) :=
  open_position_insert_if_absent 1 livePos7 [staleRow7] (by decide)

/-! ### Settling the reconciliation and vault claims -/

/-- The entry deal of the spec's end-to-end scenario (section 8):
buy, 1.0 lot, price 100, commission 0, swap 0, position 42. -/
def entry42 : Deal :=
  { dtype := 0, entry := 0, position_id := 42, symbol := "X", volume := 1,
    price := 100, time := 0, profit := 0, commission := 0, swap := 0 }

/-- The exit deal of the same scenario: price 110, profit 500,
commission -5, swap -1. -/
def exit42 : Deal :=
  { dtype := 0, entry := 1, position_id := 42, symbol := "X", volume := 1,
    price := 110, time := 1, profit := 500, commission := -5, swap := -1 }

/-- C2, evaluated at the spec's own scenario.  An entry-only group yields
no closed trade and an entry+exit group yields exactly one — but its
`net_profit` is 495 = profit + commissions, not
494 = profit + commission + swap: line 317 of the worker omits the swap it
stores in the very same record. -/
theorem closed_trade_net_omits_swap :
    closedTrades [entry42] = [] ∧
    closedTrades [entry42, exit42] = [mkClosed 42 entry42 exit42] ∧
    (mkClosed 42 entry42 exit42).net_profit = 495 ∧
    (mkClosed 42 entry42 exit42).profit +
      (mkClosed 42 entry42 exit42).commission +
      (mkClosed 42 entry42 exit42).swap = 494 := by
  decide

/-- A concrete HMAC stand-in: a constant 32-byte tag. -/
def sig0 : Bytes → Bytes := fun _ => List.replicate 32 0

/-- A concrete 8-byte timestamp. -/
def ts0 : Bytes := List.replicate 8 0

/-- A concrete 16-byte IV. -/
def iv0 : Bytes := List.replicate 16 0

/-- A concrete secret. -/
def pt0 : Bytes := [1, 2, 3]

/-- A concrete vault token (identity block cipher). -/
def tok0 : Bytes := fernetEncrypt id sig0 ts0 iv0 pt0

/-- The token `tok0` with a single flipped bit: the lowest bit of its final byte
(inside the 32-byte HMAC tag). -/
def tampered0 : Bytes :=
  tok0.take (tok0.length - 1) ++ [Nat.xor (tok0.getLastD 0) 1]

/-- C5, evaluated at a concrete tampered token.  The backend decrypt
(`fernetDecrypt`) rejects the single-bit-flipped token with `none`, as the
claim demands — but the worker's reimplementation (`wDecrypt`,
`src/vps/mt5_sync_service.py` lines 93-116) never checks the HMAC tag and
happily returns the original plaintext for the same tampered token. -/
theorem worker_decrypt_ignores_tamper :
    fernetDecrypt id sig0 tampered0 = none ∧
    wDecrypt id tampered0 = some pt0 ∧
    tampered0.length = tok0.length := by
  decide

/-- Witness for `fernetDecrypt_fernetEncrypt`: the round trip at a concrete
secret, key, timestamp and IV. -/
theorem vault_roundtrip_witness :
    fernetDecrypt id sig0 (fernetEncrypt id sig0 ts0 iv0 pt0) = some pt0 :=
  fernetDecrypt_fernetEncrypt id id sig0 (fun b hb => ⟨hb, rfl⟩)
    (fun b => by simp [sig0]) ts0 iv0 pt0 (by simp [ts0]) (by simp [iv0])

/-! ### Settling the Gateway claims -/

/-- A vault decrypt that always fails (corrupt blob / rotated key). -/
def decFail : Bytes → Option Bytes := fun _ => none

/-- A registered, never-synced active account (due at any time). -/
def acct3 : MT5Account :=
  { id := 1, user_id := 2, mt5_login := "101", mt5_password_encrypted := [0],
    mt5_server := "S", sync_interval_minutes := 5, is_active := true,
    last_sync_at := none, last_sync_status := none,
    last_sync_message := none, last_trade_time := none }

/-- C3 counterexample.  `acct3` is active and due (`last_sync_at` null),
yet the pull with the correct shared secret returns it nowhere when its
stored secret fails to decrypt: the claimed "if and only if" is false. -/
theorem due_pull_not_iff_cex :
    acct3.is_active = true ∧ shouldSync 0 acct3 = true ∧
    routePull "s" "s" decFail 0 [acct3] = .ok ([], [acct3]) := by
  refine ⟨rfl, rfl, ?_⟩
  rfl

/-- C3 as amended.  With the correct shared secret the pull succeeds, and
it returns exactly the active accounts that are due (`last_sync_at` null or
`now ≥ last_sync_at + 60 * sync_interval_minutes`) **and** whose stored
secret decrypts to a non-empty password. -/
theorem due_pull_characterization (hdr : String)
    (dec : Bytes → Option Bytes) (now : Int) (l : List MT5Account)
    (b : VPSSyncAccount) :
    routePull hdr hdr dec now l = .ok (vpsPullAccounts dec now l, l) ∧
    (b ∈ vpsPullAccounts dec now l ↔
      ∃ a ∈ l, a.is_active = true ∧ shouldSync now a = true ∧
        ∃ pw, dec a.mt5_password_encrypted = some pw ∧ pw ≠ [] ∧
          b = toVPS a pw) := by
  constructor
  · simp [routePull]
  · unfold vpsPullAccounts
    rw [List.mem_filterMap]
    constructor
    · rintro ⟨a, ha, hsel⟩
      rw [List.mem_filter] at ha
      obtain ⟨hal, hact⟩ := ha
      cases hs : shouldSync now a with
      | false => simp [dueSelector, hs] at hsel
      | true =>
        cases hdec : dec a.mt5_password_encrypted with
        | none => simp [dueSelector, hs, hdec] at hsel
        | some pw =>
          by_cases hpw : pw = []
          · subst hpw
            simp [dueSelector, hs, hdec] at hsel
          · simp [dueSelector, hs, hdec, hpw] at hsel
            exact ⟨a, hal, by simpa using hact, hs, pw, hdec, hpw, hsel.symm⟩
    · rintro ⟨a, hal, hact, hs, pw, hdec, hpw, rfl⟩
      exact ⟨a, List.mem_filter.mpr ⟨hal, by simpa using hact⟩,
        by simp [dueSelector, hs, hdec, hpw]⟩

/-- An active due account with a stored "pending" status whose secret
fails to decrypt. -/
def acct8 : MT5Account :=
  { id := 4, user_id := 5, mt5_login := "102", mt5_password_encrypted := [1],
    mt5_server := "S", sync_interval_minutes := 5, is_active := true,
    last_sync_at := none, last_sync_status := some "pending",
    last_sync_message := none, last_trade_time := none }

/-- C8 counterexample.  `acct8` is active and due but its secret fails to
decrypt: the pull (correct shared secret) skips it — and writes nothing.
The account's status field still reads "pending" afterwards, not a sync
error: the decryption failure is silently swallowed, contrary to the
claim. -/
theorem decrypt_failure_no_status_cex :
    acct8.is_active = true ∧ shouldSync 0 acct8 = true ∧
    routePull "s" "s" decFail 0 [acct8] = .ok ([], [acct8]) ∧
    acct8.last_sync_status = some "pending" := by
  refine ⟨rfl, rfl, ?_, rfl⟩
  rfl

/-- C8 as amended.  An account whose stored secret fails to decrypt is
skipped for the cycle (its selector yields nothing), but no failure is
surfaced: the pull route performs no write at all — every account's status
fields are exactly as before the request. -/
theorem decrypt_failure_skipped_silently (hdr : String)
    (dec : Bytes → Option Bytes) (now : Int) (l : List MT5Account)
    (a : MT5Account) (h : dec a.mt5_password_encrypted = none) :
    dueSelector dec now a = none ∧
    routePull hdr hdr dec now l = .ok (vpsPullAccounts dec now l, l) := by
  constructor
  · cases hs : shouldSync now a <;> simp [dueSelector, hs, h]
  · simp [routePull]

/-- Witness for `decrypt_failure_skipped_silently` at a concrete input. -/
theorem decrypt_failure_skipped_silently_witness :
    dueSelector decFail 0 acct8 = none ∧
    routePull "s" "s" decFail 0 [acct8] =
      .ok (vpsPullAccounts decFail 0 [acct8], [acct8]) :=
  decrypt_failure_skipped_silently "s" decFail 0 [acct8] acct8 rfl

/-- The status body used for concrete gateway runs. -/
def upd0 : VPSStatusUpdate :=
  { account_id := 1, status := "error", message := "boom",
    last_trade_time := none }

/-- C9.  A request to either VPS endpoint whose `X-VPS-Secret` header
differs from the configured secret is rejected with 401, returns no
account data, and leaves every account record untouched. -/
theorem wrong_secret_unauthorized (hdr vps : String)
    (dec : Bytes → Option Bytes) (now : Int) (l : List MT5Account)
    (upd : VPSStatusUpdate) (h : hdr ≠ vps) :
    routePull hdr vps dec now l = .error 401 ∧
    routeStatus hdr vps upd now l = .error 401 ∧
    statusState hdr vps upd now l = l := by
  refine ⟨?_, ?_, ?_⟩ <;> simp [routePull, routeStatus, statusState, h]

/-- Witness for `wrong_secret_unauthorized` at a concrete input. -/
theorem wrong_secret_unauthorized_witness :
    routePull "a" "b" decFail 0 [] = .error 401 ∧
    routeStatus "a" "b" upd0 0 [] = .error 401 ∧
    statusState "a" "b" upd0 0 [] = [] :=
  wrong_secret_unauthorized "a" "b" decFail 0 [] upd0 (by decide)

/-- Under distinct stored ids, every member of the updated table carrying
the reported id is the found account with the status fields rewritten. -/
theorem applyStatus_mem_eq (upd : VPSStatusUpdate) (now : Int) :
    ∀ (l l2 : List MT5Account), (l.map MT5Account.id).Nodup →
      applyStatus upd now l = some l2 →
      ∀ a2 ∈ l2, a2.id = upd.account_id →
        ∃ a ∈ l, a.id = upd.account_id ∧ a2 = setStatus a upd now := by
  intro l
  induction l with
  | nil =>
    intro l2 _ h
    cases h
  | cons a rest ih =>
    intro l2 hnd h a2 ha2 hid
    rw [applyStatus] at h
    by_cases ha : a.id = upd.account_id
    · rw [if_pos ha] at h
      obtain rfl : setStatus a upd now :: rest = l2 := Option.some_inj.mp h
      rcases List.mem_cons.mp ha2 with h2 | h2
      · exact ⟨a, by simp, ha, h2⟩
      · exfalso
        have hmem : a.id ∈ rest.map MT5Account.id :=
          List.mem_map.mpr ⟨a2, h2, by rw [hid, ha]⟩
        simp only [List.map_cons, List.nodup_cons] at hnd
        exact hnd.1 hmem
    · rw [if_neg ha] at h
      cases hrec : applyStatus upd now rest with
      | none =>
        rw [hrec] at h
        cases h
      | some l2x =>
        rw [hrec] at h
        obtain rfl : a :: l2x = l2 := by simpa using h
        rcases List.mem_cons.mp ha2 with h2 | h2
        · subst h2
          exact absurd hid ha
        · have hnd2 : (rest.map MT5Account.id).Nodup := by
            simp only [List.map_cons, List.nodup_cons] at hnd
            exact hnd.2
          obtain ⟨a3, ha3, haid, heq⟩ := ih l2x hnd2 hrec a2 h2 hid
          exact ⟨a3, by simp [ha3], haid, heq⟩

/-- C10.  Every accepted status report — success or error alike — stamps
the account's `last_sync_at` with the current time (and stores the reported
status and message); as a result the account is not due again, and is not
selected by the pull, until a full sync interval has passed since that
attempt. -/
theorem status_report_sets_last_sync_at (upd : VPSStatusUpdate) (now : Int)
    (l l2 : List MT5Account) (hnd : (l.map MT5Account.id).Nodup)
    (h : applyStatus upd now l = some l2) (a2 : MT5Account) (ha2 : a2 ∈ l2)
    (hid : a2.id = upd.account_id) (hdr : String)
    (dec : Bytes → Option Bytes) (t2 : Int)
    (ht2 : t2 < now + 60 * a2.sync_interval_minutes) :
    a2.last_sync_at = some now ∧
    a2.last_sync_status = some upd.status ∧
    a2.last_sync_message = some upd.message ∧
    routeStatus hdr hdr upd now l = .ok (l2, "updated") ∧
    dueSelector dec t2 a2 = none := by
  obtain ⟨a, ha, haid, rfl⟩ := applyStatus_mem_eq upd now l l2 hnd h a2 ha2 hid
  refine ⟨rfl, rfl, rfl, ?_, ?_⟩
  · simp [routeStatus, h]
  · simp only [setStatus] at ht2
    have hs : shouldSync t2 (setStatus a upd now) = false := by
      simp only [shouldSync, setStatus]
      simp only [decide_eq_false_iff_not]
      omega
    simp [dueSelector, hs]

/-- A previously-synced active account (synced at time 0, interval 5 min). -/
def acct10 : MT5Account :=
  { id := 1, user_id := 2, mt5_login := "103", mt5_password_encrypted := [2],
    mt5_server := "S", sync_interval_minutes := 5, is_active := true,
    last_sync_at := some 0, last_sync_status := some "success",
    last_sync_message := none, last_trade_time := none }

/-- Witness for `status_report_sets_last_sync_at`: a failed sync reported
at time 100 stamps `last_sync_at := 100`, and the account is not selected
as due at time 100 (only 0 of the 300 interval seconds have passed). -/
theorem status_report_sets_last_sync_at_witness :
    (setStatus acct10 upd0 100).last_sync_at = some 100 ∧
    (setStatus acct10 upd0 100).last_sync_status = some upd0.status ∧
    (setStatus acct10 upd0 100).last_sync_message = some upd0.message ∧
    routeStatus "s" "s" upd0 100 [acct10] =
      .ok ([setStatus acct10 upd0 100], "updated") ∧
    dueSelector decFail 100 (setStatus acct10 upd0 100) = none :=
  status_report_sets_last_sync_at upd0 100 [acct10]
    [setStatus acct10 upd0 100] (by decide) rfl _ (by simp) rfl "s"
    decFail 100 (by decide)

/-- An account whose stored watermark is 100. -/
def acct6 : MT5Account :=
  { id := 1, user_id := 2, mt5_login := "104", mt5_password_encrypted := [3],
    mt5_server := "S", sync_interval_minutes := 5, is_active := true,
    last_sync_at := some 0, last_sync_status := some "success",
    last_sync_message := none, last_trade_time := some 100 }

/-- A status report carrying an *older* trade time, 50. -/
def upd6 : VPSStatusUpdate :=
  { account_id := 1, status := "success", message := "Synced 0 new trades",
    last_trade_time := some 50 }

/-- C6 counterexample.  The stored watermark is 100; an accepted report
carrying the older time 50 overwrites it with 50 — the claimed "only when
newer" guard does not exist (`update_sync_status_from_vps` line 310-311
stores any present value). -/
theorem watermark_stale_overwrite_cex :
    (applyStatus upd6 200 [acct6]).map
        (fun l => l.map (fun a => a.last_trade_time)) = some [some 50] ∧
    acct6.last_trade_time = some 100 := by
  refine ⟨?_, rfl⟩
  rfl

/-- C6 as amended.  The Gateway stores any reported `last_trade_time`
unconditionally — no comparison with the stored watermark — and the value
the Worker reports (when at least one row was inserted) is the current
wall-clock time, not the newest reconciled trade's close time. -/
theorem watermark_overwrite_behavior (upd : VPSStatusUpdate) (now : Int)
    (l l2 : List MT5Account) (hnd : (l.map MT5Account.id).Nodup)
    (h : applyStatus upd now l = some l2) (a2 : MT5Account) (ha2 : a2 ∈ l2)
    (hid : a2.id = upd.account_id) (t : Int)
    (ht : upd.last_trade_time = some t) (n : Nat) (hn : 0 < n)
    (now2 : Int) :
    a2.last_trade_time = some t ∧ cycleReportTime n now2 = some now2 := by
  obtain ⟨a, ha, haid, rfl⟩ := applyStatus_mem_eq upd now l l2 hnd h a2 ha2 hid
  constructor
  · simp [setStatus, ht]
  · simp [cycleReportTime, hn]

/-- Witness for `watermark_overwrite_behavior` at the concrete stale
report: the stored watermark becomes 50. -/
theorem watermark_overwrite_behavior_witness :
    (setStatus acct6 upd6 200).last_trade_time = some 50 ∧
    cycleReportTime 1 999 = some 999 :=
  watermark_overwrite_behavior upd6 200 [acct6] [setStatus acct6 upd6 200]
    (by decide) rfl _ (by simp) rfl 50 rfl 1 (by decide) 999

end TJ
